import Mathlib

/-!
Verification of the NeuMan dataset preparation module
(`hugs/datasets/neuman.py`) against its natural-language specification.

The Python source is shallowly embedded below.  Conventions used throughout:

* machine floats carrying exact decimal constants are modelled as rationals
  (`ℚ`); external numeric-library collaborators (`np.arctan`, trigonometric
  camera-path offsets, `torch.inverse`, the SMPL body-model evaluator,
  `get_rays_from_KRT`, `approx_gaussian_bone_volumes`, ...) are fields of an
  `Ext` record of external inputs, as §6 of the spec treats them as
  collaborators outside this module;
* numpy arrays become Lean lists (flattened arrays index row-major, pixel
  `i ↦ (i / W, i % W)`), images and masks become functions of `(y, x)`;
* fallible operations (`np.random.choice` on an empty candidate set, numpy
  reductions over empty arrays, Python `assert`, a missing `elif` branch)
  return `Option`/`Except`;
* `np.random.choice(n, size=[1])` draws are made explicit: a draw parameter
  `k : ℕ` selects candidate `k % n`, and a per-patch draw stream is a
  function `ℕ → ℕ`.
-/

namespace Neuman

/-- A 3-vector of exact rationals (one row of an `(N, 3)` numpy array). -/
structure V3 where
  x : ℚ
  y : ℚ
  z : ℚ
deriving DecidableEq, Repr

/-- Componentwise minimum, as in `np.min(..., axis=0)` accumulation. -/
def vmin (a b : V3) : V3 := ⟨min a.x b.x, min a.y b.y, min a.z b.z⟩

/-- Componentwise maximum, as in `np.max(..., axis=0)` accumulation. -/
def vmax (a b : V3) : V3 := ⟨max a.x b.x, max a.y b.y, max a.z b.z⟩

/-- Componentwise addition. -/
def vadd (a b : V3) : V3 := ⟨a.x + b.x, a.y + b.y, a.z + b.z⟩

/-- Componentwise subtraction. -/
def vsub (a b : V3) : V3 := ⟨a.x - b.x, a.y - b.y, a.z - b.z⟩

/-- The constant vector (broadcast of a scalar over the 3 components). -/
def vconst (c : ℚ) : V3 := ⟨c, c, c⟩

/-- Scalar multiplication of a 3-vector. -/
def smulV (c : ℚ) (v : V3) : V3 := ⟨c * v.x, c * v.y, c * v.z⟩

/-- Componentwise order on 3-vectors (numpy broadcast `<=` being all-true). -/
def vle (a b : V3) : Prop := a.x ≤ b.x ∧ a.y ≤ b.y ∧ a.z ≤ b.z

instance (a b : V3) : Decidable (vle a b) := by
  unfold vle; infer_instance

/-- `NeumanDataset.skeleton_to_bbox(skeleton, bbox_offset)` (neuman.py:318-322):
componentwise `np.min`/`np.max` over the joint positions, padded by the offset.
`np.min` of an empty array raises, modelled as `none`. -/
def skeletonToBbox (skeleton : List V3) (bboxOffset : ℚ) : Option (V3 × V3) :=
  match skeleton with
  | [] => none
  | p :: ps =>
    some (vsub (ps.foldl vmin p) (vconst bboxOffset),
          vadd (ps.foldl vmax p) (vconst bboxOffset))

/-- A concrete two-point skeleton used to witness C5. -/
def skeletonW : List V3 := [⟨0, 0, 0⟩, ⟨1, -1, 2⟩]

/-- `np.clip(v, lo, hi)` on integers: `lo` is applied first, so when
`hi < lo` the result is `hi` (numpy semantics). -/
def clipI (v lo hi : ℤ) : ℤ := min (max v lo) hi

/-- The patch-window corner computation of
`NeumanDataset._get_patch_ray_indices` (neuman.py:380-385): the window is
centered at the chosen pixel and clipped to `[0, W-patch_size]` /
`[0, H-patch_size]` by shifting, then extended by `patch_size`.
Returns `(x_min, y_min, x_max, y_max)`. -/
def patchWindow (patchSize H W cx cy : ℕ) : ℤ × ℤ × ℤ × ℤ :=
  let half : ℤ := ((patchSize / 2 : ℕ) : ℤ)
  let xMin : ℤ := clipI ((cx : ℤ) - half) 0 ((W : ℤ) - (patchSize : ℤ))
  let xMax : ℤ := xMin + (patchSize : ℤ)
  let yMin : ℤ := clipI ((cy : ℤ) - half) 0 ((H : ℤ) - (patchSize : ℤ))
  let yMax : ℤ := yMin + (patchSize : ℤ)
  (xMin, yMin, xMax, yMax)

/-- `np.where(candidate_mask)` over an `H × W` boolean image: the list of
`(y, x)` pixel coordinates of true entries, in row-major order
(outer loop rows, matching numpy). -/
def validPixels (cand : ℕ → ℕ → Bool) (H W : ℕ) : List (ℕ × ℕ) :=
  (List.range H).flatMap
    (fun y => ((List.range W).filter (fun x => cand y x)).map (fun x => (y, x)))

/-- The patch-center choice of `_get_patch_ray_indices` (neuman.py:373-378):
`np.random.choice(valid.shape[0], size=[1])` with explicit draw `k` modelled
as selecting candidate `k % n`; on an empty candidate set `np.random.choice`
raises `ValueError`, modelled as `none`.  Returns `(center_y, center_x)`. -/
def patchCenter (cand : ℕ → ℕ → Bool) (H W k : ℕ) : Option (ℕ × ℕ) :=
  (validPixels cand H W).get? (k % (validPixels cand H W).length)

/-- Number of true entries of a boolean array (`np.count_nonzero` of a mask). -/
def countTrue (l : List Bool) : ℕ := (l.filter id).length

/-- `np.cumsum(ray_mask) - 1` evaluated at flat position `i`
(`masked_indices[i]` in `_get_patch_ray_indices`). -/
def maskedIdx (rayMask : List Bool) (i : ℕ) : ℤ :=
  (countTrue (rayMask.take (i + 1)) : ℤ) - 1

/-- Python slice-bound normalization for an axis of length `len`: negative
bounds count from the end, then the bound is clamped to `[0, len]`. -/
def pyNorm (len : ℕ) (i : ℤ) : ℕ :=
  (max 0 (min (if i < 0 then i + (len : ℤ) else i) (len : ℤ))).toNat

/-- The indices selected by a Python basic slice `[a:b]` on an axis of
length `len` (step 1). -/
def sliceList (len : ℕ) (a b : ℤ) : List ℕ :=
  List.range' (pyNorm len a) (pyNorm len b - pyNorm len a)

/-- Membership of pixel `(y, x)` in the rectangle written by
`sel_ray_mask[y_min:y_max, x_min:x_max] = True` (neuman.py:392-393),
with Python slice-bound normalization. -/
def selRegion (H W : ℕ) (xMin yMin xMax yMax : ℤ) (y x : ℕ) : Bool :=
  decide (pyNorm H yMin ≤ y ∧ y < pyNorm H yMax ∧ pyNorm W xMin ≤ x ∧ x < pyNorm W xMax)

/-- The 2D crop `arr[y_min:y_max, x_min:x_max]` of an `H × W` array given as
a function of `(y, x)`, as a list of rows. -/
def crop2D {α : Type} (f : ℕ → ℕ → α) (H W : ℕ) (yMin yMax xMin xMax : ℤ) :
    List (List α) :=
  (sliceList H yMin yMax).map (fun y => (sliceList W xMin xMax).map (fun x => f y x))

/-- The per-patch result of `_get_patch_ray_indices` (neuman.py:368-408):
compacted ray indices, the cropped intra-patch validity mask, and the
window corners. -/
structure PatchSingle where
  rayIdx : List ℤ
  interPatch : List (List Bool)
  xyMin : ℤ × ℤ
  xyMax : ℤ × ℤ
deriving DecidableEq, Repr

/-- `NeumanDataset._get_patch_ray_indices(ray_mask, candidate_mask,
patch_size, H, W)` (neuman.py:368-408) with explicit random draw `k`:
choose a patch center among the candidate-mask pixels, clip the window,
intersect the window's flattened pixel mask with `ray_mask`, and map the
selected flat pixel positions into compacted-ray space via
`np.cumsum(ray_mask) - 1`.  Flat index `i` corresponds to pixel
`(i / W, i % W)` (row-major `reshape(-1)`). -/
def getPatchRayIndicesAux (rayMask : List Bool) (cand : ℕ → ℕ → Bool)
    (patchSize H W k : ℕ) : Option PatchSingle :=
  (patchCenter cand H W k).map (fun c =>
    let w := patchWindow patchSize H W c.2 c.1
    let interFlat : ℕ → Bool :=
      fun i => selRegion H W w.1 w.2.1 w.2.2.1 w.2.2.2 (i / W) (i % W)
        && rayMask.getD i false
    let selectMasked := (List.range (H * W)).filter interFlat
    ⟨selectMasked.map (maskedIdx rayMask),
     crop2D (fun y x => interFlat (y * W + x)) H W w.2.1 w.2.2.2 w.1 w.2.2.1,
     (w.1, w.2.1), (w.2.2.1, w.2.2.2)⟩)

/-- An all-false candidate mask over a 2×2 image. -/
def candFalse : ℕ → ℕ → Bool := fun _ _ => false

/-- A candidate mask over a 2×2 image that is true exactly at `(y=0, x=1)`. -/
def candOne : ℕ → ℕ → Bool := fun y x => y == 0 && x == 1

/-- The aggregated result of `NeumanDataset.get_patch_ray_indices`
(neuman.py:333-366): concatenated compacted ray indices, stacked per-patch
masks and corners, and the patch boundary array `patch_div_indices`. -/
structure PatchOut where
  selectInds : List ℤ
  masks : List (List (List Bool))
  xyMinL : List (ℤ × ℤ)
  xyMaxL : List (ℤ × ℤ)
  divIndices : List ℕ
deriving DecidableEq, Repr

/-- The `for _ in range(N_patch)` loop of `get_patch_ray_indices`
(neuman.py:343-356): iteration `j` consumes random draw `draws j`; any
failing iteration aborts (propagating the `ValueError` of an empty
candidate set). -/
def patchResults (rayMask : List Bool) (cand : ℕ → ℕ → Bool)
    (patchSize H W : ℕ) (draws : ℕ → ℕ) : ℕ → Option (List PatchSingle)
  | 0 => some []
  | n + 1 =>
    match patchResults rayMask cand patchSize H W draws n,
          getPatchRayIndicesAux rayMask cand patchSize H W (draws n) with
    | some rs, some r => some (rs ++ [r])
    | _, _ => none

/-- `NeumanDataset.get_patch_ray_indices(N_patch, ray_mask, subject_mask,
patch_size, H, W)` (neuman.py:333-366): runs `N_patch` patch draws
(`candidate_mask = subject_mask` on every iteration), concatenates the
per-patch ray indices, stacks masks and corners, and accumulates
`patch_div_indices = [0, t₁, t₁+t₂, …]`. -/
def getPatchRayIndices (NPatch : ℕ) (rayMask : List Bool) (cand : ℕ → ℕ → Bool)
    (patchSize H W : ℕ) (draws : ℕ → ℕ) : Option PatchOut :=
  match patchResults rayMask cand patchSize H W draws NPatch with
  | none => none
  | some rs =>
    some ⟨(rs.map PatchSingle.rayIdx).flatten,
          rs.map PatchSingle.interPatch,
          rs.map PatchSingle.xyMin,
          rs.map PatchSingle.xyMax,
          (rs.map (fun r => r.rayIdx.length)).scanl (· + ·) 0⟩

/-- A concrete ray mask for witnessing C2 over a 2×2 image. -/
def rayMaskW : List Bool := [true, false, true, false]

/-- The indices selected by the Python extended slice
`range(scene_length)[offset::step]` (ascending, step > 0). -/
def pySliceStep (n offset step : ℕ) : List ℕ :=
  (List.range n).filter (fun i => offset ≤ i && (i - offset) % step == 0)

/-- `val_list` of `get_data_splits` (neuman.py:52-57) before the test/val
split: `range(scene_length)[offset::length]` with
`length = int(1 / num_val * scene_length)` and `offset = length // 2`.
The float expression `1 / num_val * scene_length` is evaluated in exact
arithmetic as `⌊scene_length / num_val⌋`; the claimed invariants do not
depend on the exact value of `length`. -/
def valListFull (n : ℕ) : List ℕ :=
  pySliceStep n ((n / (n / 5)) / 2) (n / (n / 5))

/-- `train_list = list(set(range(scene_length)) - set(val_list))`
(neuman.py:58), in ascending order (the claimed invariants are
order-independent; CPython set iteration order is unspecified). -/
def trainListOf (n : ℕ) : List ℕ :=
  (List.range n).filter (fun i => decide (i ∉ valListFull n))

/-- `test_list = val_list[:len(val_list) // 2]` (neuman.py:59). -/
def testListOf (n : ℕ) : List ℕ :=
  (valListFull n).take ((valListFull n).length / 2)

/-- `val_list = val_list[len(val_list) // 2:]` (neuman.py:60). -/
def valListOf (n : ℕ) : List ℕ :=
  (valListFull n).drop ((valListFull n).length / 2)

/-- `get_data_splits(scene)` (neuman.py:52-64) as a function of the number
of captures: `num_val = 0` (fewer than 5 captures) raises
`ZeroDivisionError`; a failing `assert` (any empty split) raises
`AssertionError`, in source order (train, test, val); otherwise returns
`(train_list, val_list, test_list)`. -/
def getDataSplits (n : ℕ) : Except String (List ℕ × List ℕ × List ℕ) :=
  if n / 5 = 0 then Except.error ("ZeroDivisionError")
  else if (trainListOf n).isEmpty then Except.error ("AssertionError: train")
  else if (testListOf n).isEmpty then Except.error ("AssertionError: test")
  else if (valListOf n).isEmpty then Except.error ("AssertionError: val")
  else Except.ok (trainListOf n, valListOf n, testListOf n)

/-- `os.path.basename` restricted to slash-separated paths: the characters
after the last slash. -/
def afterLastSlash (cs : List Char) : List Char :=
  cs.foldl (fun acc c => if c = '/' then [] else acc ++ [c]) []

/-- `os.path.basename(scene_name)` as used by the scene-name dispatchers. -/
def basename (s : String) : String := String.mk (afterLastSlash s.data)

/-- `mocap_path(scene_name)` (neuman.py:67-91): the active (non-commented)
return per recognized scene basename; any other scene name raises
`ValueError('Define new elif branch')`. -/
def mocapPath (sceneName : String) : Except String (String × ℕ × ℕ × ℕ) :=
  if basename sceneName = "seattle" then
    Except.ok ("./data/SFU/0005/0005_SideSkip001_poses.npz", 0, 800, 4)
  else if basename sceneName = "citron" then
    Except.ok ("./data/MPI_mosh/00093/irish_dance_poses.npz", 0, 1000, 4)
  else if basename sceneName = "parkinglot" then
    Except.ok ("./data/SFU/0005/0005_2FeetJump001_poses.npz", 0, 1200, 4)
  else if basename sceneName = "bike" then
    Except.ok ("./data/MPI_mosh/50002/misc_poses.npz", 0, 250, 1)
  else if basename sceneName = "jogging" then
    Except.ok ("./data/SFU/0007/0007_Cartwheel001_poses.npz", 200, 1000, 8)
  else if basename sceneName = "lab" then
    Except.ok ("./data/SFU/0008/0008_ChaCha001_poses.npz", 0, 1000, 4)
  else Except.error ("ValueError: Define new elif branch")

/-- `alignment(scene_name)` (neuman.py:94-123): per-scene manual
translation, rotation and uniform scale.  The rotation is returned in
degrees; the source multiplies by the float `np.pi / 180` (an irrational
constant, kept symbolic here — the branch structure is what the claims
concern).  Note the final `else` branch returns an identity default
(translation 0, rotation 0, scale 1) instead of raising. -/
def alignment (sceneName : String) : V3 × V3 × ℚ :=
  if basename sceneName = "seattle" then
    (⟨-225/100, 108/100, 818/100⟩, ⟨904/10, -42/10, -1⟩, 18/10)
  else if basename sceneName = "citron" then
    (⟨633/100, 17/10, 107/10⟩, ⟨724/10, 1682/10, -44/10⟩, 25/10)
  else if basename sceneName = "parkinglot" then
    (⟨-8/10, 235/100, 1267/100⟩, ⟨94, -85, -363⟩, 3)
  else if basename sceneName = "bike" then
    (⟨0, 88/100, 389/100⟩, ⟨888/10, 180, 18/10⟩, 1)
  else if basename sceneName = "jogging" then
    (⟨0, 24/100, 33/100⟩, ⟨958/10, -12/10, -22/10⟩, 25/100)
  else if basename sceneName = "lab" then
    (⟨576/100, 303/100, 1169/100⟩, ⟨904/10, -42/10, -18/10⟩, 3)
  else
    (⟨0, 0, 0⟩, ⟨0, 0, 0⟩, 1)

/-- A camera capture as mutated by `rendering_caps`: camera center in world
plus the pose basis vectors `right`, `up`, `forward`. -/
structure Cap where
  center : V3
  right : V3
  up : V3
  forward : V3
deriving DecidableEq, Repr

/-- `rendering_caps(scene_name, nframes, scene)` (neuman.py:126-185):
per-scene synthesized camera paths offsetting a fixed reference capture.
`cosT`/`sinT` stand for the floating-point `np.cos`/`np.sin` of
`2π ×` their argument (collaborator math library, §6).  On an unrecognized
scene name the source has no `else` branch, so `return dummy_caps` raises
`UnboundLocalError` — modelled as an error value. -/
def renderingCaps (sceneName : String) (nframes : ℕ) (caps : ℕ → Cap)
    (cosT sinT : ℚ → ℚ) : Except String (List Cap) :=
  if basename sceneName = "seattle" then
    Except.ok ((List.range nframes).map (fun i =>
      let t := caps 20
      let xOff := smulV ((15/10) * cosT ((i : ℚ) / (nframes : ℚ))) t.right
      let yOff := smulV ((1/20) * sinT ((i : ℚ) / (nframes : ℚ))) t.up
      ⟨vadd (vadd t.center xOff) yOff, t.right, t.up, t.forward⟩))
  else if basename sceneName = "citron" then
    Except.ok ((List.range nframes).map (fun i =>
      let t := caps 33
      let xOff := smulV ((45/100) * cosT (2 * (i : ℚ) / (nframes : ℚ)) + 2/10) t.right
      let yOff := smulV ((9/100) * sinT (2 * (i : ℚ) / (nframes : ℚ))) t.up
      ⟨vadd (vadd t.center xOff) yOff, t.right, t.up, t.forward⟩))
  else if basename sceneName = "parkinglot" then
    Except.ok ((List.range nframes).map (fun i =>
      let t := caps 23
      let xOff := smulV ((15/10) * cosT (2 * (i : ℚ) / (nframes : ℚ)) + 2/10) t.right
      let yOff := smulV ((15/100) * sinT (2 * (i : ℚ) / (nframes : ℚ))) t.up
      ⟨vadd (vadd t.center xOff) yOff, t.right, t.up, t.forward⟩))
  else if basename sceneName = "bike" then
    Except.ok ((List.range nframes).map (fun i =>
      let t := caps 25
      ⟨vadd t.center (smulV ((1/100) * (i : ℚ)) t.right), t.right, t.up, t.forward⟩))
  else if basename sceneName = "jogging" then
    Except.ok ((List.range nframes).map (fun i =>
      let t := caps 67
      ⟨vsub t.center (smulV ((1/100) * (i : ℚ)) t.right), t.right, t.up, t.forward⟩))
  else if basename sceneName = "lab" then
    Except.ok ((List.range nframes).map (fun i =>
      let t := caps 39
      let xOff := smulV ((15/10) * cosT ((i : ℚ) / (nframes : ℚ))) t.right
      let yOff := smulV ((3/100) * sinT ((i : ℚ) / (nframes : ℚ))) t.up
      ⟨vadd (vadd (vadd t.center xOff) yOff) (smulV (2/10) t.forward),
       t.right, t.up, t.forward⟩))
  else Except.error ("UnboundLocalError: dummy_caps")

/-- A concrete scene path whose basename is none of the recognized scenes. -/
def sceneFoo : String := "my/scenes/foo"

/-- The trivial capture used in the C6 witness. -/
def capTriv : Cap := ⟨⟨0, 0, 0⟩, ⟨0, 0, 0⟩, ⟨0, 0, 0⟩, ⟨0, 0, 0⟩⟩

/-- A 3×3 matrix of rationals. -/
abbrev Mat3 := Fin 3 → Fin 3 → ℚ

/-- A 4×4 matrix of rationals. -/
abbrev Mat4 := Fin 4 → Fin 4 → ℚ

/-- torch `.T` on a 4×4 tensor. -/
def transpose4 (m : Mat4) : Mat4 := fun i j => m j i

/-- 4×4 matrix product (`torch.bmm` with batch size 1). -/
def mul4 (a b : Mat4) : Mat4 :=
  fun i j => Finset.univ.sum (fun k => a i k * b k j)

/-- The upper-left 3×3 block `E[:3, :3]` of a 4×4 matrix. -/
def m3of4 (m : Mat4) : Mat3 :=
  fun i j => m (Fin.castLE (by norm_num) i) (Fin.castLE (by norm_num) j)

/-- The translation column `E[:3, 3]` of a 4×4 matrix. -/
def col3of (m : Mat4) : V3 := ⟨m 0 3, m 1 3, m 2 3⟩

/-- Row slice `M[3, :3]` of a 4×4 matrix. -/
def row3of (m : Mat4) : V3 := ⟨m 3 0, m 3 1, m 3 2⟩

/-- Boolean-mask array indexing `xs[mask]` (numpy compaction). -/
def maskFilter {α : Type} (mask : List Bool) (xs : List α) : List α :=
  ((mask.zip xs).filter Prod.fst).map Prod.snd

/-- Modelled from the spec: `rays_intersect_3d_bbox`'s per-axis slab step
(§4.3; the source function lives in `hugs/utils/camera_util.py`, outside
`src/`).  A zero direction component is "no constraint" when the origin is
inside the slab (`some none`), otherwise "no intersection" (`none`); a
nonzero component gives the ordered pair of crossing distances. -/
def axisSlab (mn mx o d : ℚ) : Option (Option (ℚ × ℚ)) :=
  if d = 0 then (if mn ≤ o ∧ o ≤ mx then some none else none)
  else some (some (min ((mn - o) / d) ((mx - o) / d),
                   max ((mn - o) / d) ((mx - o) / d)))

/-- Modelled from the spec: one ray of `rays_intersect_3d_bbox` (§4.3).
`near` is the maximum of the per-axis lower bounds, `far` the minimum of
the upper bounds; the ray intersects iff `near ≤ far ∧ 0 ≤ far`.  For the
degenerate all-unconstrained ray (zero direction inside the box) the spec
leaves the distances open; `(0, 0)` is chosen (§9 notes the ambiguity). -/
def rayHit (bmin bmax o d : V3) : Option (ℚ × ℚ) :=
  match axisSlab bmin.x bmax.x o.x d.x, axisSlab bmin.y bmax.y o.y d.y,
        axisSlab bmin.z bmax.z o.z d.z with
  | some i1, some i2, some i3 =>
    match [i1, i2, i3].filterMap id with
    | [] => some (0, 0)
    | c :: rest =>
      let nr := rest.foldl (fun a p => max a p.1) c.1
      let fr := rest.foldl (fun a p => min a p.2) c.2
      if nr ≤ fr ∧ 0 ≤ fr then some (nr, fr) else none
  | _, _, _ => none

/-- Modelled from the spec: `rays_intersect_3d_bbox(bbox, rays_o, rays_d)`
(§4.3, called at neuman.py:557).  Returns compacted `near` and `far`
(intersecting rays only) plus the full-length boolean ray mask. -/
def raysIntersect3dBbox (bbox : V3 × V3) (raysO raysD : List V3) :
    List ℚ × List ℚ × List Bool :=
  let hits := (raysO.zip raysD).map (fun p => rayHit bbox.1 bbox.2 p.1 p.2)
  ((hits.filterMap id).map Prod.fst, (hits.filterMap id).map Prod.snd,
   hits.map Option.isSome)

/-- The dataset split requested at construction (`split` argument;
the animation split drives only the mocap/alignment/camera-path helpers
modelled separately above). -/
inductive Split
  | train
  | val
deriving DecidableEq, Repr

/-- The external inputs of one `NeumanDataset` session (§6 collaborators):
scene captures (images, masks, camera data), the per-frame SMPL parameter
store, and the external numeric routines the sample assembler calls.
`image`/`maskRaw` give raw 8-bit values at `(capture, y, x)`; `dilated` is
the `cv2.dilate` collaborator output used in `scene` render mode. -/
structure Ext where
  n : ℕ
  split : Split
  isSceneMode : Bool
  image : ℕ → ℕ → ℕ → V3
  maskRaw : ℕ → ℕ → ℕ → ℚ
  dilated : ℕ → ℕ → ℕ → ℚ
  sizeH : ℕ → ℕ
  sizeW : ℕ → ℕ
  intr : ℕ → Mat3
  w2c : ℕ → Mat4
  c2wM : ℕ → Mat4
  extrinsic : ℕ → Mat4
  betas : ℕ → List ℚ
  globalOrient : ℕ → List ℚ
  bodyPose : ℕ → List ℚ
  transl : ℕ → List ℚ
  smplScale : ℕ → ℚ
  smplJoints : List ℚ → List ℚ → List V3
  daPose : List ℚ
  approxVolumes : List V3 → V3 → V3 → List ℚ
  bodyPoseToRTs : List ℚ → List V3 → List Mat3 × List V3
  canonicalGlobalTfms : List V3 → List Mat4
  applyGlobalTfm : Mat4 → List ℚ → List ℚ → Mat4
  raysO : ℕ → ℕ → Mat3 → Mat3 → V3 → ℕ → ℕ → V3
  raysD : ℕ → ℕ → Mat3 → Mat3 → V3 → ℕ → ℕ → V3
  arctanQ : ℚ → ℚ
  projMatrix : ℚ → ℚ → ℚ → ℚ → Mat4
  inv4 : Mat4 → Mat4

/-- `img = (cap.captured_image.image[..., :3] / 255)` (neuman.py:451-452). -/
def imgOf (ext : Ext) (idx : ℕ) : ℕ → ℕ → V3 :=
  fun y x => smulV (1 / 255) (ext.image idx y x)

/-- `msk = cv2.imread(..., GRAYSCALE) / 255`, dilated in `scene` render
mode (neuman.py:454-457). -/
def mskOf (ext : Ext) (idx : ℕ) : ℕ → ℕ → ℚ :=
  fun y x => if ext.isSceneMode then ext.dilated idx y x else ext.maskRaw idx y x / 255

/-- The state right after ray–box intersection and ray-mask compaction
(neuman.py:547-563): per-ray `near`/`far` (already compacted by
`rays_intersect_3d_bbox`), the full-length ray mask, and the compacted
`rays_o`, `rays_d` and target pixel colors `ray_img`. -/
structure RayStage where
  nerfNear : List ℚ
  nerfFar : List ℚ
  rayMask : List Bool
  raysO : List V3
  raysD : List V3
  rayImg : List V3
deriving Repr

/-- Lines 541-563 of `get_single_item`: compose the extrinsic with the
frame's global body transform, generate the per-pixel ray batch
(`get_rays_from_KRT`, external), flatten row-major, intersect with the
destination box, and compact `rays_o`/`rays_d`/`ray_img` by the ray mask. -/
def compactStage (ext : Ext) (idx : ℕ) (bbox : V3 × V3) : RayStage :=
  let H := ext.sizeH idx
  let W := ext.sizeW idx
  let K := ext.intr idx
  let E := ext.applyGlobalTfm (ext.extrinsic idx) (ext.globalOrient idx) (ext.transl idx)
  let R := m3of4 E
  let T := smulV (1 / 13) (col3of E)
  let rOs := (List.range (H * W)).map (fun i => ext.raysO H W K R T (i / W) (i % W))
  let rDs := (List.range (H * W)).map (fun i => ext.raysD H W K R T (i / W) (i % W))
  let rImg := (List.range (H * W)).map (fun i => imgOf ext idx (i / W) (i % W))
  let res := raysIntersect3dBbox bbox rOs rDs
  ⟨res.1, res.2.1, res.2.2, maskFilter res.2.2 rOs, maskFilter res.2.2 rDs,
   maskFilter res.2.2 rImg⟩

/-- The mask-derived subject bounding box (neuman.py:459-464):
`rows = np.any(msk, axis=0)` ranges over columns and `cols = np.any(msk,
axis=1)` over rows (the variable names are the source's); `ymin/ymax` are
the first/last nonzero entry of `rows` and `xmin/xmax` of `cols`, packed as
`[xmin, ymin, xmax, ymax]`.  `np.where(...)[0][[0, -1]]` on an all-zero
mask raises, modelled as `none`. -/
def maskBBox (msk : ℕ → ℕ → ℚ) (H W : ℕ) : Option (ℕ × ℕ × ℕ × ℕ) :=
  let rowsIdx := (List.range W).filter
    (fun j => (List.range H).any (fun y => decide (msk y j ≠ 0)))
  let colsIdx := (List.range H).filter
    (fun i => (List.range W).any (fun x => decide (msk i x ≠ 0)))
  match rowsIdx.head?, rowsIdx.getLast?, colsIdx.head?, colsIdx.getLast? with
  | some ymin, some ymax, some xmin, some xmax => some (xmin, ymin, xmax, ymax)
  | _, _, _, _ => none

/-- `self.smpl_params["betas"].mean(dim=0)` (neuman.py:515): the
componentwise mean of the per-frame betas rows. -/
def meanBetas (ext : Ext) : List ℚ :=
  ((List.range ext.n).foldl (fun acc i => List.zipWith (· + ·) acc (ext.betas i))
    (List.replicate 10 0)).map (fun q => q / (ext.n : ℚ))

/-- The canonical (da-pose) subject data of `get_single_item`
(neuman.py:511-524): canonical joints from the body model at the predefined
da-pose and the mean betas, their padded bounding box, and the approximate
per-bone motion-weight volume.  Every input is frame-independent. -/
structure CnlPart where
  joints : List V3
  boxMin : V3
  boxMax : V3
  mwp : List ℚ

/-- Computes the canonical part (neuman.py:511-524).  The source rebuilds
this on every `get_single_item` call from frame-independent inputs; it is
factored out here so the across-frame equality is visible. -/
def canonicalPart (ext : Ext) : Option CnlPart :=
  let poses := List.replicate 3 0 ++ ext.daPose
  let cj := ext.smplJoints poses (meanBetas ext)
  match skeletonToBbox cj (3 / 10) with
  | none => none
  | some bb => some ⟨cj, bb.1, bb.2, ext.approxVolumes cj bb.1 bb.2⟩

/-- The random-draw-independent fields of the sample record (`datum` dict of
`get_single_item`, neuman.py:449-639, except the patch-sampled entries).
`znear`/`zfar` are the `near`/`far` dict keys; `rgb`/`mask` hold the image
content (the tensor transpose is layout only). -/
structure BaseDatum where
  rgb : ℕ → ℕ → V3
  mask : ℕ → ℕ → ℚ
  bboxD : ℕ × ℕ × ℕ × ℕ
  fovx : ℚ
  fovy : ℚ
  imageHeight : ℕ
  imageWidth : ℕ
  worldViewTransform : Mat4
  c2w : Mat4
  fullProjTransform : Mat4
  cameraCenter : V3
  camIntrinsics : Mat3
  betas : List ℚ
  globalOrient : List ℚ
  bodyPose : List ℚ
  transl : List ℚ
  smplScale : ℚ
  znear : ℚ
  zfar : ℚ
  rayMask : List Bool
  bgcolor : V3
  dstRs : List Mat3
  dstTs : List V3
  cnlGtfms : List Mat4
  motionWeightsPriors : List ℚ
  cnlBboxMinXyz : V3
  cnlBboxMaxXyz : V3
  cnlBboxScaleXyz : V3
  dstPosevec : List ℚ

/-- The full sample record: the draw-independent base plus the
patch-sampled entries (`rays`, `nerf_near`, `nerf_far`,
`patch_div_indices`, `patch_masks`, `target_patches`,
`target_patch_masks`, `target_rgbs`). -/
structure Datum where
  base : BaseDatum
  rays : List V3 × List V3
  nerfNear : List ℚ
  nerfFar : List ℚ
  patchDivIndices : List ℕ
  patchMasks : List (List (List Bool))
  targetPatches : List (List (List V3))
  targetPatchMasks : List (List (List ℚ))
  targetRgbs : List V3

/-- Gather `xs[select_inds]` for vector arrays.  The indices are the
compacted ray indices, proven nonnegative and in range (claim C2), so
numpy's negative-index wrapping is not modelled. -/
def gatherV (xs : List V3) (sel : List ℤ) : List V3 :=
  sel.map (fun i => xs.getD i.toNat ⟨0, 0, 0⟩)

/-- Gather `xs[select_inds]` for scalar arrays. -/
def gatherQ (xs : List ℚ) (sel : List ℤ) : List ℚ :=
  sel.map (fun i => xs.getD i.toNat 0)

/-- The output tuple of `NeumanDataset.sample_patch_rays`
(neuman.py:410-436). -/
structure PatchSampleOut where
  raysO : List V3
  raysD : List V3
  rayImg : List V3
  nerfNear : List ℚ
  nerfFar : List ℚ
  targetPatches : List (List (List V3))
  targetPatchMasks : List (List (List ℚ))
  patchMasks : List (List (List Bool))
  divIndices : List ℕ

/-- `NeumanDataset.sample_patch_rays(img, mask, H, W, subject_mask,
ray_mask, rays_o, rays_d, ray_img, nerf_near, nerf_far)`
(neuman.py:410-436): policy `N_patch = 1`, `patch_size = 160`; draw the
patch, gather the selected rays (`select_rays`, neuman.py:324-331), and
crop the target image and mask to each patch window. -/
def samplePatchRays (imgC : ℕ → ℕ → V3) (msk : ℕ → ℕ → ℚ) (H W : ℕ)
    (subj : ℕ → ℕ → Bool) (rayMask : List Bool)
    (raysO raysD rayImg : List V3) (near far : List ℚ)
    (draws : ℕ → ℕ) : Option PatchSampleOut :=
  match getPatchRayIndices 1 rayMask subj 160 H W draws with
  | none => none
  | some po =>
    some ⟨gatherV raysO po.selectInds, gatherV raysD po.selectInds,
          gatherV rayImg po.selectInds, gatherQ near po.selectInds,
          gatherQ far po.selectInds,
          (po.xyMinL.zip po.xyMaxL).map (fun c =>
            crop2D imgC H W c.1.2 c.2.2 c.1.1 c.2.1),
          (po.xyMinL.zip po.xyMaxL).map (fun c =>
            crop2D msk H W c.1.2 c.2.2 c.1.1 c.2.1),
          po.masks, po.divIndices⟩

/-- The frame data available before the patch draw: the
draw-independent record fields plus what `sample_patch_rays` consumes. -/
structure PreD where
  b : BaseDatum
  hgt : ℕ
  wid : ℕ
  imgCv2 : ℕ → ℕ → V3
  mskF : ℕ → ℕ → ℚ
  stage : RayStage

/-- The draw-independent computation of `get_single_item` on capture
`idx` (neuman.py:449-563 and 601-630): image and mask loading, the
mask-derived bbox, camera/projection data, the canonical part, the
destination skeleton and box, ray generation/intersection/compaction, body
transforms and pose vectors.  The `assert np.all(cnl_bbox_scale_xyz >= 0)`
(neuman.py:623) is the final guard. -/
def preDatum (ext : Ext) (idx : ℕ) : Option PreD :=
  let H := ext.sizeH idx
  let W := ext.sizeW idx
  let img := imgOf ext idx
  let msk := mskOf ext idx
  match maskBBox msk H W with
  | none => none
  | some bb =>
    match canonicalPart ext with
    | none => none
    | some cp =>
      let dstPoses := List.replicate 3 0 ++ ext.bodyPose idx
      let joints := ext.smplJoints dstPoses (ext.betas idx)
      match skeletonToBbox joints (3 / 10) with
      | none => none
      | some dstBox =>
        let scaleXyz : V3 := ⟨2 / (cp.boxMax.x - cp.boxMin.x),
                              2 / (cp.boxMax.y - cp.boxMin.y),
                              2 / (cp.boxMax.z - cp.boxMin.z)⟩
        if 0 ≤ scaleXyz.x ∧ 0 ≤ scaleXyz.y ∧ 0 ≤ scaleXyz.z then
          let K := ext.intr idx
          let fovx := 2 * ext.arctanQ ((W : ℚ) / (2 * K 0 0))
          let fovy := 2 * ext.arctanQ ((H : ℚ) / (2 * K 1 1))
          let wvt := transpose4 (ext.w2c idx)
          let projM := transpose4 (ext.projMatrix (1 / 100) 100 fovx fovy)
          let stage := compactStage ext idx dstBox
          let dstRT := ext.bodyPoseToRTs dstPoses cp.joints
          let bg : V3 := ⟨0, 0, 0⟩
          some ⟨⟨img, msk, bb, fovx, fovy, H, W,
                 wvt, ext.c2wM idx, mul4 wvt projM, row3of (ext.inv4 wvt),
                 K,
                 ext.betas idx, ext.globalOrient idx, ext.bodyPose idx,
                 ext.transl idx, ext.smplScale idx,
                 1 / 100, 100,
                 stage.rayMask, bg,
                 dstRT.1, dstRT.2, ext.canonicalGlobalTfms cp.joints,
                 cp.mwp, cp.boxMin, cp.boxMax, scaleXyz,
                 (ext.bodyPose idx).map (fun q => q + 1 / 100)⟩,
                H, W,
                (fun y x => if msk y x = 0 then bg else img y x),
                msk, stage⟩
        else none

/-- `sample_patch_rays` as called from `get_single_item`
(neuman.py:565-576): `subject_mask = msk > 0`, targets cropped from the
background-substituted image `img_cv2` (neuman.py:549-550). -/
def patchStage (pre : PreD) (draws : ℕ → ℕ) : Option PatchSampleOut :=
  samplePatchRays pre.imgCv2 pre.mskF pre.hgt pre.wid
    (fun y x => decide (0 < pre.mskF y x)) pre.stage.rayMask
    pre.stage.raysO pre.stage.raysD pre.stage.rayImg
    pre.stage.nerfNear pre.stage.nerfFar draws

/-- Assembling the final `datum` dict (neuman.py:578-599):
`rays = np.stack([rays_o, rays_d])`, the patch outputs, and
`target_rgbs = ray_img` after selection. -/
def assemble (pre : PreD) (po : PatchSampleOut) : Datum :=
  ⟨pre.b, (po.raysO, po.raysD), po.nerfNear, po.nerfFar, po.divIndices,
   po.patchMasks, po.targetPatches, po.targetPatchMasks, po.rayImg⟩

/-- `self.train_split, _, self.val_split = get_data_splits(scene)`
(neuman.py:232): note the middle component (the actual val list) is
discarded and `val_split` receives the returned test list.  A failing
`get_data_splits` would abort `__init__`; modelled as empty splits. -/
def splitLists (ext : Ext) : List ℕ × List ℕ :=
  match getDataSplits ext.n with
  | Except.error _ => ([], [])
  | Except.ok s => (s.1, s.2.2)

/-- The capture-index list of the active split (`train_split[i]` or
`val_split[i]`, neuman.py:440-443). -/
def idxList (ext : Ext) : List ℕ :=
  match ext.split with
  | Split.train => (splitLists ext).1
  | Split.val => (splitLists ext).2

/-- `NeumanDataset.__len__` (neuman.py:310-316) for train/val splits. -/
def datasetLen (ext : Ext) : ℕ := (idxList ext).length

/-- `NeumanDataset.get_single_item(i)` (neuman.py:438-639) for a train/val
dataset, with the per-patch random draw stream explicit.  An out-of-range
`i` (Python `IndexError`), an all-zero mask, an empty joint list or an
empty patch-candidate set propagate as `none`. -/
def getSingleItem (ext : Ext) (i : ℕ) (draws : ℕ → ℕ) : Option Datum :=
  match (idxList ext).get? i with
  | none => none
  | some idx =>
    match preDatum ext idx with
    | none => none
    | some pre => (patchStage pre draws).map (assemble pre)

/-- A concrete external-input record: 10 captures, train split,
`human_scene` mode, 1×322 images, subject mask true at pixels `(0, 0)` and
`(0, 321)`, a single body joint at the origin, and ray collaborators whose
pixel-(0,0) ray starts inside the destination box while all other rays
start far outside it (so exactly one ray survives intersection). -/
def extRng : Ext :=
  ⟨10, Split.train, false,
   fun _ _ _ => ⟨0, 0, 0⟩,
   fun _ y x => if y = 0 ∧ (x = 0 ∨ x = 321) then 255 else 0,
   fun _ _ _ => 0,
   fun _ => 1,
   fun _ => 322,
   fun _ _ _ => 1,
   fun _ _ _ => 0,
   fun _ _ _ => 0,
   fun _ _ _ => 0,
   fun _ => List.replicate 10 0,
   fun _ => [0, 0, 0],
   fun _ => List.replicate 69 0,
   fun _ => [0, 0, 0],
   fun _ => 1,
   fun _ _ => [⟨0, 0, 0⟩],
   List.replicate 69 0,
   fun _ _ _ => [1],
   fun _ _ => ([], []),
   fun _ => [],
   fun e _ _ => e,
   fun _ _ _ _ _ y x => if y = 0 ∧ x = 0 then ⟨0, 0, 0⟩ else ⟨100, 0, 0⟩,
   fun _ _ _ _ _ _ _ => ⟨1, 1, 1⟩,
   fun q => q,
   fun _ _ _ _ _ _ => 0,
   fun m => m⟩

/-- The constant draw stream 0 (patch center: the first candidate pixel). -/
def dZero : ℕ → ℕ := fun _ => 0

/-- The constant draw stream 1 (patch center: the second candidate pixel). -/
def dOne : ℕ → ℕ := fun _ => 1

/-- A cache-build draw assignment: every item uses draw stream 0. -/
def buildZero : ℕ → ℕ → ℕ := fun _ _ => 0

/-- The canonical-data fields of a sample record
(`cnl_bbox_min_xyz`, `cnl_bbox_max_xyz`, `cnl_bbox_scale_xyz`,
`motion_weights_priors`). -/
def cnlView (d : Datum) : V3 × V3 × V3 × List ℚ :=
  (d.base.cnlBboxMinXyz, d.base.cnlBboxMaxXyz, d.base.cnlBboxScaleXyz,
   d.base.motionWeightsPriors)

/-- `load_data_to_cuda` (neuman.py:641-648): the eagerly materialized
cache, entry `i` computed by `get_single_item(i)` with the draw stream the
build consumed for that item (the move of tensors to the accelerator is
content-preserving and not modelled). -/
def cacheList (ext : Ext) (buildDraws : ℕ → ℕ → ℕ) : List (Option Datum) :=
  (List.range (datasetLen ext)).map (fun i => getSingleItem ext i (buildDraws i))

/-- `__getitem__(idx)` with the cache populated (neuman.py:650-654, the
path always taken since `__init__` builds the cache): serve
`cached_data[idx]`. -/
def getItemCached (ext : Ext) (buildDraws : ℕ → ℕ → ℕ) (idx : ℕ) :
    Option (Option Datum) :=
  (cacheList ext buildDraws).get? idx

theorem vle_refl (a : V3) : vle a a := ⟨le_refl _, le_refl _, le_refl _⟩

theorem vle_trans {a b c : V3} (h1 : vle a b) (h2 : vle b c) : vle a c :=
  ⟨h1.1.trans h2.1, h1.2.1.trans h2.2.1, h1.2.2.trans h2.2.2⟩

theorem vmin_le_left (a b : V3) : vle (vmin a b) a :=
  ⟨min_le_left _ _, min_le_left _ _, min_le_left _ _⟩

theorem vmin_le_right (a b : V3) : vle (vmin a b) b :=
  ⟨min_le_right _ _, min_le_right _ _, min_le_right _ _⟩

theorem le_vmax_left (a b : V3) : vle a (vmax a b) :=
  ⟨le_max_left _ _, le_max_left _ _, le_max_left _ _⟩

theorem le_vmax_right (a b : V3) : vle b (vmax a b) :=
  ⟨le_max_right _ _, le_max_right _ _, le_max_right _ _⟩

theorem foldl_vmin_le_init : ∀ (l : List V3) (a : V3), vle (l.foldl vmin a) a := by
  intro l
  induction l with
  | nil => intro a; exact vle_refl a
  | cons b t ih =>
    intro a
    exact vle_trans (ih (vmin a b)) (vmin_le_left a b)

theorem foldl_vmin_le_mem : ∀ (l : List V3) (a p : V3), p ∈ l → vle (l.foldl vmin a) p := by
  intro l
  induction l with
  | nil => intro a p hp; cases hp
  | cons b t ih =>
    intro a p hp
    rcases List.mem_cons.mp hp with h | h
    · subst h
      exact vle_trans (foldl_vmin_le_init t (vmin a p)) (vmin_le_right a p)
    · exact ih (vmin a b) p h

theorem foldl_le_vmax_init : ∀ (l : List V3) (a : V3), vle a (l.foldl vmax a) := by
  intro l
  induction l with
  | nil => intro a; exact vle_refl a
  | cons b t ih =>
    intro a
    exact vle_trans (le_vmax_left a b) (ih (vmax a b))

theorem foldl_le_vmax_mem : ∀ (l : List V3) (a p : V3), p ∈ l → vle p (l.foldl vmax a) := by
  intro l
  induction l with
  | nil => intro a p hp; cases hp
  | cons b t ih =>
    intro a p hp
    rcases List.mem_cons.mp hp with h | h
    · subst h
      exact vle_trans (le_vmax_right a p) (foldl_le_vmax_init t (vmax a p))
    · exact ih (vmax a b) p h

theorem foldl_vmin_attained_x :
    ∀ (l : List V3) (a : V3), (l.foldl vmin a).x = a.x ∨ ∃ p ∈ l, (l.foldl vmin a).x = p.x := by
  intro l
  induction l with
  | nil => intro a; exact Or.inl rfl
  | cons b t ih =>
    intro a
    rcases ih (vmin a b) with h | ⟨p, hp, hpx⟩
    · rcases min_choice a.x b.x with hm | hm
      · exact Or.inl (by rw [List.foldl_cons, h]; exact hm)
      · exact Or.inr ⟨b, List.mem_cons_self _ _, by rw [List.foldl_cons, h]; exact hm⟩
    · exact Or.inr ⟨p, List.mem_cons_of_mem _ hp, hpx⟩

theorem foldl_vmin_attained_y :
    ∀ (l : List V3) (a : V3), (l.foldl vmin a).y = a.y ∨ ∃ p ∈ l, (l.foldl vmin a).y = p.y := by
  intro l
  induction l with
  | nil => intro a; exact Or.inl rfl
  | cons b t ih =>
    intro a
    rcases ih (vmin a b) with h | ⟨p, hp, hpy⟩
    · rcases min_choice a.y b.y with hm | hm
      · exact Or.inl (by rw [List.foldl_cons, h]; exact hm)
      · exact Or.inr ⟨b, List.mem_cons_self _ _, by rw [List.foldl_cons, h]; exact hm⟩
    · exact Or.inr ⟨p, List.mem_cons_of_mem _ hp, hpy⟩

theorem foldl_vmin_attained_z :
    ∀ (l : List V3) (a : V3), (l.foldl vmin a).z = a.z ∨ ∃ p ∈ l, (l.foldl vmin a).z = p.z := by
  intro l
  induction l with
  | nil => intro a; exact Or.inl rfl
  | cons b t ih =>
    intro a
    rcases ih (vmin a b) with h | ⟨p, hp, hpz⟩
    · rcases min_choice a.z b.z with hm | hm
      · exact Or.inl (by rw [List.foldl_cons, h]; exact hm)
      · exact Or.inr ⟨b, List.mem_cons_self _ _, by rw [List.foldl_cons, h]; exact hm⟩
    · exact Or.inr ⟨p, List.mem_cons_of_mem _ hp, hpz⟩

theorem foldl_vmax_attained_x :
    ∀ (l : List V3) (a : V3), (l.foldl vmax a).x = a.x ∨ ∃ p ∈ l, (l.foldl vmax a).x = p.x := by
  intro l
  induction l with
  | nil => intro a; exact Or.inl rfl
  | cons b t ih =>
    intro a
    rcases ih (vmax a b) with h | ⟨p, hp, hpx⟩
    · rcases max_choice a.x b.x with hm | hm
      · exact Or.inl (by rw [List.foldl_cons, h]; exact hm)
      · exact Or.inr ⟨b, List.mem_cons_self _ _, by rw [List.foldl_cons, h]; exact hm⟩
    · exact Or.inr ⟨p, List.mem_cons_of_mem _ hp, hpx⟩

theorem foldl_vmax_attained_y :
    ∀ (l : List V3) (a : V3), (l.foldl vmax a).y = a.y ∨ ∃ p ∈ l, (l.foldl vmax a).y = p.y := by
  intro l
  induction l with
  | nil => intro a; exact Or.inl rfl
  | cons b t ih =>
    intro a
    rcases ih (vmax a b) with h | ⟨p, hp, hpy⟩
    · rcases max_choice a.y b.y with hm | hm
      · exact Or.inl (by rw [List.foldl_cons, h]; exact hm)
      · exact Or.inr ⟨b, List.mem_cons_self _ _, by rw [List.foldl_cons, h]; exact hm⟩
    · exact Or.inr ⟨p, List.mem_cons_of_mem _ hp, hpy⟩

theorem foldl_vmax_attained_z :
    ∀ (l : List V3) (a : V3), (l.foldl vmax a).z = a.z ∨ ∃ p ∈ l, (l.foldl vmax a).z = p.z := by
  intro l
  induction l with
  | nil => intro a; exact Or.inl rfl
  | cons b t ih =>
    intro a
    rcases ih (vmax a b) with h | ⟨p, hp, hpz⟩
    · rcases max_choice a.z b.z with hm | hm
      · exact Or.inl (by rw [List.foldl_cons, h]; exact hm)
      · exact Or.inr ⟨b, List.mem_cons_self _ _, by rw [List.foldl_cons, h]; exact hm⟩
    · exact Or.inr ⟨p, List.mem_cons_of_mem _ hp, hpz⟩

/-- Claim C5: `skeleton_to_bbox` on a non-empty point sequence and a
nonnegative offset returns the componentwise minimum minus the offset and
the componentwise maximum plus the offset (stated as: `min_xyz + offset` is
a lower bound of the points attained in each coordinate, dually for
`max_xyz - offset`); consequently `min_xyz ≤ max_xyz` componentwise and
every input point lies within `[min_xyz + offset, max_xyz - offset]`. -/
theorem C5_skeleton_to_bbox (sk : List V3) (off : ℚ)
    (hne : sk ≠ []) (hoff : 0 ≤ off) :
    match skeletonToBbox sk off with
    | none => False
    | some mm =>
        vle mm.1 mm.2
        ∧ (∀ p ∈ sk, vle (vadd mm.1 (vconst off)) p ∧ vle p (vsub mm.2 (vconst off)))
        ∧ ((∃ p ∈ sk, (vadd mm.1 (vconst off)).x = p.x)
            ∧ (∃ p ∈ sk, (vadd mm.1 (vconst off)).y = p.y)
            ∧ (∃ p ∈ sk, (vadd mm.1 (vconst off)).z = p.z))
        ∧ ((∃ p ∈ sk, (vsub mm.2 (vconst off)).x = p.x)
            ∧ (∃ p ∈ sk, (vsub mm.2 (vconst off)).y = p.y)
            ∧ (∃ p ∈ sk, (vsub mm.2 (vconst off)).z = p.z)) := by
  match sk, hne with
  | p :: ps, _ =>
    simp only [skeletonToBbox]
    have hminadd : vadd (vsub (ps.foldl vmin p) (vconst off)) (vconst off) = ps.foldl vmin p := by
      simp [vadd, vsub, vconst]
    have hmaxsub : vsub (vadd (ps.foldl vmax p) (vconst off)) (vconst off) = ps.foldl vmax p := by
      simp [vadd, vsub, vconst]
    refine ⟨?_, ?_, ?_, ?_⟩
    · have h1 : vle (ps.foldl vmin p) p := foldl_vmin_le_init ps p
      have h2 : vle p (ps.foldl vmax p) := foldl_le_vmax_init ps p
      have h3 : vle (ps.foldl vmin p) (ps.foldl vmax p) := vle_trans h1 h2
      refine ⟨?_, ?_, ?_⟩
      · simp only [vsub, vadd, vconst]
        have := h3.1; linarith
      · simp only [vsub, vadd, vconst]
        have := h3.2.1; linarith
      · simp only [vsub, vadd, vconst]
        have := h3.2.2; linarith
    · intro q hq
      rw [hminadd, hmaxsub]
      rcases List.mem_cons.mp hq with h | h
      · subst h
        exact ⟨foldl_vmin_le_init ps q, foldl_le_vmax_init ps q⟩
      · exact ⟨foldl_vmin_le_mem ps p q h, foldl_le_vmax_mem ps p q h⟩
    · rw [hminadd]
      refine ⟨?_, ?_, ?_⟩
      · rcases foldl_vmin_attained_x ps p with h | ⟨q, hq, hqx⟩
        · exact ⟨p, List.mem_cons_self _ _, h⟩
        · exact ⟨q, List.mem_cons_of_mem _ hq, hqx⟩
      · rcases foldl_vmin_attained_y ps p with h | ⟨q, hq, hqy⟩
        · exact ⟨p, List.mem_cons_self _ _, h⟩
        · exact ⟨q, List.mem_cons_of_mem _ hq, hqy⟩
      · rcases foldl_vmin_attained_z ps p with h | ⟨q, hq, hqz⟩
        · exact ⟨p, List.mem_cons_self _ _, h⟩
        · exact ⟨q, List.mem_cons_of_mem _ hq, hqz⟩
    · rw [hmaxsub]
      refine ⟨?_, ?_, ?_⟩
      · rcases foldl_vmax_attained_x ps p with h | ⟨q, hq, hqx⟩
        · exact ⟨p, List.mem_cons_self _ _, h⟩
        · exact ⟨q, List.mem_cons_of_mem _ hq, hqx⟩
      · rcases foldl_vmax_attained_y ps p with h | ⟨q, hq, hqy⟩
        · exact ⟨p, List.mem_cons_self _ _, h⟩
        · exact ⟨q, List.mem_cons_of_mem _ hq, hqy⟩
      · rcases foldl_vmax_attained_z ps p with h | ⟨q, hq, hqz⟩
        · exact ⟨p, List.mem_cons_self _ _, h⟩
        · exact ⟨q, List.mem_cons_of_mem _ hq, hqz⟩

/-- Witness for C5 at a concrete skeleton and the source's default offset 0.3. -/
theorem C5_skeleton_to_bbox_witness :
    skeletonW ≠ [] ∧ (0 : ℚ) ≤ 3 / 10 ∧
    (match skeletonToBbox skeletonW (3 / 10) with
     | none => False
     | some mm =>
        vle mm.1 mm.2
        ∧ (∀ p ∈ skeletonW,
            vle (vadd mm.1 (vconst (3 / 10))) p ∧ vle p (vsub mm.2 (vconst (3 / 10))))
        ∧ ((∃ p ∈ skeletonW, (vadd mm.1 (vconst (3 / 10))).x = p.x)
            ∧ (∃ p ∈ skeletonW, (vadd mm.1 (vconst (3 / 10))).y = p.y)
            ∧ (∃ p ∈ skeletonW, (vadd mm.1 (vconst (3 / 10))).z = p.z))
        ∧ ((∃ p ∈ skeletonW, (vsub mm.2 (vconst (3 / 10))).x = p.x)
            ∧ (∃ p ∈ skeletonW, (vsub mm.2 (vconst (3 / 10))).y = p.y)
            ∧ (∃ p ∈ skeletonW, (vsub mm.2 (vconst (3 / 10))).z = p.z))) :=
  ⟨by decide, by norm_num,
   C5_skeleton_to_bbox skeletonW (3 / 10) (by decide) (by norm_num)⟩

/-- Claim C9: with `0 < patch_size ≤ min(H, W)` and a valid center pixel,
the clipped window is exactly `patch_size × patch_size` and lies inside the
image: `0 ≤ x_min`, `x_max = x_min + patch_size ≤ W`, `0 ≤ y_min`,
`y_max = y_min + patch_size ≤ H` (the window shifts inward instead of
shrinking near the border). -/
theorem C9_patch_window (patchSize H W cx cy : ℕ)
    (hp : 0 < patchSize) (hH : patchSize ≤ H) (hW : patchSize ≤ W)
    (hcx : cx < W) (hcy : cy < H)
    (xm ym xM yM : ℤ) (heq : patchWindow patchSize H W cx cy = (xm, ym, xM, yM)) :
    0 ≤ xm ∧ xM = xm + (patchSize : ℤ) ∧ xM ≤ (W : ℤ)
    ∧ 0 ≤ ym ∧ yM = ym + (patchSize : ℤ) ∧ yM ≤ (H : ℤ) := by
  simp only [patchWindow, clipI, Prod.mk.injEq] at heq
  obtain ⟨hx, hy, hX, hY⟩ := heq
  have hWp : (0 : ℤ) ≤ (W : ℤ) - (patchSize : ℤ) := by
    have := hW; omega
  have hHp : (0 : ℤ) ≤ (H : ℤ) - (patchSize : ℤ) := by
    have := hH; omega
  have hxm0 : 0 ≤ xm := by
    rw [← hx]
    exact le_min (le_trans (le_max_right _ _) (le_refl _)) hWp
  have hxmW : xm ≤ (W : ℤ) - (patchSize : ℤ) := by
    rw [← hx]; exact min_le_right _ _
  have hym0 : 0 ≤ ym := by
    rw [← hy]
    exact le_min (le_trans (le_max_right _ _) (le_refl _)) hHp
  have hymH : ym ≤ (H : ℤ) - (patchSize : ℤ) := by
    rw [← hy]; exact min_le_right _ _
  refine ⟨hxm0, by omega, by omega, hym0, by omega, by omega⟩

/-- Witness for C9: a 2×2 patch in a 4×4 image centered at pixel `(x=3, y=0)`
is shifted to the window `[2,4)×[0,2)`. -/
theorem C9_patch_window_witness :
    0 < 2 ∧ 2 ≤ 4 ∧ 2 ≤ 4 ∧ 3 < 4 ∧ 0 < 4 ∧
    ((0 : ℤ) ≤ 2 ∧ (4 : ℤ) = 2 + (2 : ℕ) ∧ (4 : ℤ) ≤ (4 : ℕ)
      ∧ (0 : ℤ) ≤ 0 ∧ (2 : ℤ) = 0 + (2 : ℕ) ∧ (2 : ℤ) ≤ (4 : ℕ)) :=
  ⟨by decide, by decide, by decide, by decide, by decide,
   C9_patch_window 2 4 4 3 0 (by decide) (by decide) (by decide) (by decide) (by decide)
     2 0 4 2 (by decide)⟩

theorem patchCenter_isSome_iff (cand : ℕ → ℕ → Bool) (H W k : ℕ) :
    (patchCenter cand H W k).isSome = true ↔ validPixels cand H W ≠ [] := by
  unfold patchCenter
  constructor
  · intro h hnil
    rw [hnil] at h
    simp [List.get?] at h
  · intro hne
    have hlen : 0 < (validPixels cand H W).length := List.length_pos.mpr hne
    have hlt : k % (validPixels cand H W).length < (validPixels cand H W).length :=
      Nat.mod_lt _ hlen
    rw [List.get?_eq_get hlt]
    rfl

theorem validPixels_mem (cand : ℕ → ℕ → Bool) (H W : ℕ) (y x : ℕ)
    (h : (y, x) ∈ validPixels cand H W) : cand y x = true := by
  unfold validPixels at h
  rcases List.mem_flatMap.mp h with ⟨y', _, hmem⟩
  rcases List.mem_map.mp hmem with ⟨x', hx', hpair⟩
  obtain ⟨rfl, rfl⟩ : y = y' ∧ x = x' := by
    cases hpair; exact ⟨rfl, rfl⟩
  exact (List.mem_filter.mp hx').2

/-- Claim C7: patch sampling with an all-false subject mask fails (the
random center choice over an empty candidate set raises), and with at least
one true pixel the chosen patch center is a pixel where the candidate mask
is true (and the patch computation succeeds). -/
theorem C7_patch_center (rayMask : List Bool) (cand : ℕ → ℕ → Bool)
    (patchSize H W k : ℕ) :
    (validPixels cand H W = [] →
      patchCenter cand H W k = none
      ∧ getPatchRayIndicesAux rayMask cand patchSize H W k = none)
    ∧ (∀ c, patchCenter cand H W k = some c → cand c.1 c.2 = true)
    ∧ (validPixels cand H W ≠ [] →
        (patchCenter cand H W k).isSome = true
        ∧ (getPatchRayIndicesAux rayMask cand patchSize H W k).isSome = true) := by
  refine ⟨?_, ?_, ?_⟩
  · intro hnil
    have hcn : patchCenter cand H W k = none := by
      unfold patchCenter
      rw [hnil]
      simp [List.get?]
    refine ⟨hcn, ?_⟩
    unfold getPatchRayIndicesAux
    rw [hcn]
    rfl
  · intro c hc
    have hmem : c ∈ validPixels cand H W := by
      unfold patchCenter at hc
      exact List.get?_mem hc
    exact validPixels_mem cand H W c.1 c.2 (by
      have : (c.1, c.2) = c := rfl
      rw [this]; exact hmem)
  · intro hne
    have hcs : (patchCenter cand H W k).isSome = true :=
      (patchCenter_isSome_iff cand H W k).mpr hne
    refine ⟨hcs, ?_⟩
    unfold getPatchRayIndicesAux
    rw [Option.isSome_map']
    exact hcs

/-- Witness for C7: on the all-false mask the center choice and the patch
computation fail; on a mask with one true pixel the chosen center is that
true pixel. -/
theorem C7_patch_center_witness :
    (patchCenter candFalse 2 2 0 = none
      ∧ getPatchRayIndicesAux [true, false, true, false] candFalse 1 2 2 0 = none)
    ∧ candOne 0 1 = true
    ∧ (patchCenter candOne 2 2 1).isSome = true := by
  refine ⟨?_, ?_, ?_⟩
  · exact (C7_patch_center [true, false, true, false] candFalse 1 2 2 0).1 (by decide)
  · exact (C7_patch_center [true, false, true, false] candOne 1 2 2 1).2.1 (0, 1) (by decide)
  · exact ((C7_patch_center [true, false, true, false] candOne 1 2 2 1).2.2 (by decide)).1

theorem countTrue_take_pos (l : List Bool) (i : ℕ) (h : l.getD i false = true) :
    0 < countTrue (l.take (i + 1)) := by
  induction l generalizing i with
  | nil => simp [List.getD] at h
  | cons b t ih =>
    cases i with
    | zero =>
      have hb : b = true := by simpa using h
      subst hb
      simp [countTrue]
    | succ j =>
      have hj : t.getD j false = true := h
      have := ih j hj
      simp only [List.take, countTrue, List.filter]
      cases b <;> simp [countTrue] at this ⊢ <;> omega

theorem countTrue_take_le (l : List Bool) (k : ℕ) :
    countTrue (l.take k) ≤ countTrue l := by
  unfold countTrue
  have hsub : (l.take k).Sublist l := List.take_sublist k l
  exact List.Sublist.length_le (List.Sublist.filter id hsub)

theorem maskedIdx_bounds (rayMask : List Bool) (i : ℕ)
    (h : rayMask.getD i false = true) :
    0 ≤ maskedIdx rayMask i ∧ maskedIdx rayMask i < (countTrue rayMask : ℤ) := by
  unfold maskedIdx
  have h1 := countTrue_take_pos rayMask i h
  have h2 := countTrue_take_le rayMask (i + 1)
  omega

theorem aux_rayIdx_bounds (rayMask : List Bool) (cand : ℕ → ℕ → Bool)
    (patchSize H W k : ℕ) (r : PatchSingle)
    (hr : getPatchRayIndicesAux rayMask cand patchSize H W k = some r) :
    ∀ v ∈ r.rayIdx, 0 ≤ v ∧ v < (countTrue rayMask : ℤ) := by
  unfold getPatchRayIndicesAux at hr
  rcases ho : patchCenter cand H W k with _ | c
  · rw [ho] at hr; exact absurd hr (by simp)
  · rw [ho, Option.map_some'] at hr
    simp only [Option.some.injEq] at hr
    subst hr
    intro v hv
    simp only [List.mem_map] at hv
    rcases hv with ⟨i, hi, rfl⟩
    have hflat := (List.mem_filter.mp hi).2
    have hmask : rayMask.getD i false = true := by
      rcases Bool.and_eq_true_iff.mp hflat with ⟨_, h2⟩
      exact h2
    exact maskedIdx_bounds rayMask i hmask

theorem patchResults_mem (rayMask : List Bool) (cand : ℕ → ℕ → Bool)
    (patchSize H W : ℕ) (draws : ℕ → ℕ) :
    ∀ (n : ℕ) (rs : List PatchSingle),
      patchResults rayMask cand patchSize H W draws n = some rs →
      ∀ r ∈ rs, ∃ k, getPatchRayIndicesAux rayMask cand patchSize H W k = some r := by
  intro n
  induction n with
  | zero =>
    intro rs hrs r hr
    simp only [patchResults, Option.some.injEq] at hrs
    subst hrs
    cases hr
  | succ m ih =>
    intro rs hrs r hr
    unfold patchResults at hrs
    rcases h1 : patchResults rayMask cand patchSize H W draws m with _ | rs0 <;> rw [h1] at hrs
    · exact absurd hrs (by simp)
    · rcases h2 : getPatchRayIndicesAux rayMask cand patchSize H W (draws m) with _ | r0 <;>
        rw [h2] at hrs
      · exact absurd hrs (by simp)
      · simp only [Option.some.injEq] at hrs
        subst hrs
        rcases List.mem_append.mp hr with h | h
        · exact ih rs0 h1 r h
        · rcases List.mem_singleton.mp h with rfl
          exact ⟨draws m, h2⟩

theorem scanl_add_chain (l : List ℕ) (a : ℕ) :
    List.Chain' (· ≤ ·) (l.scanl (· + ·) a) := by
  induction l generalizing a with
  | nil => simp [List.scanl]
  | cons b t ih =>
    simp only [List.scanl]
    refine List.Chain'.cons' (ih (a + b)) ?_
    intro y hy
    have : (t.scanl (· + ·) (a + b)).head? = some (a + b) := by
      cases t <;> simp [List.scanl]
    rw [this] at hy
    cases hy
    omega

theorem scanl_add_head (l : List ℕ) (a : ℕ) :
    (l.scanl (· + ·) a).head? = some a := by
  cases l <;> simp [List.scanl]

theorem scanl_add_last (l : List ℕ) (a : ℕ) :
    (l.scanl (· + ·) a).getLast? = some (a + l.sum) := by
  induction l generalizing a with
  | nil => simp [List.scanl]
  | cons b t ih =>
    simp only [List.scanl]
    have h2 : (a :: List.scanl (· + ·) (a + b) t).getLast?
        = (List.scanl (· + ·) (a + b) t).getLast? := by
      cases t with
      | nil => simp [List.scanl]
      | cons c t' => simp [List.scanl, List.getLast?_cons_cons]
    rw [h2, ih (a + b)]
    simp [List.sum_cons]
    omega

/-- Claim C2: for every `get_patch_ray_indices` call on a ray mask of length
`H·W` with a subject mask holding at least one true pixel, every returned
compacted ray index is `≥ 0` and `< count_true(ray_mask)`, and
`patch_div_indices` is non-decreasing, starts at `0`, and ends at the total
length of the concatenated ray-index array. -/
theorem C2_patch_ray_indices (NPatch : ℕ) (rayMask : List Bool)
    (cand : ℕ → ℕ → Bool) (patchSize H W : ℕ) (draws : ℕ → ℕ)
    (hlen : rayMask.length = H * W) (hsub : validPixels cand H W ≠ []) :
    match getPatchRayIndices NPatch rayMask cand patchSize H W draws with
    | none => False
    | some out =>
        (∀ v ∈ out.selectInds, 0 ≤ v ∧ v < (countTrue rayMask : ℤ))
        ∧ List.Chain' (· ≤ ·) out.divIndices
        ∧ out.divIndices.head? = some 0
        ∧ out.divIndices.getLast? = some out.selectInds.length := by
  have hsome : ∀ n, (patchResults rayMask cand patchSize H W draws n).isSome = true := by
    intro n
    induction n with
    | zero => rfl
    | succ m ihm =>
      unfold patchResults
      rcases h1 : patchResults rayMask cand patchSize H W draws m with _ | rs0
      · rw [h1] at ihm; simp at ihm
      · rcases h2 : getPatchRayIndicesAux rayMask cand patchSize H W (draws m) with _ | r0
        · have h3 := ((C7_patch_center rayMask cand patchSize H W (draws m)).2.2 hsub).2
          rw [h2] at h3; simp at h3
        · rfl
  unfold getPatchRayIndices
  rcases hres : patchResults rayMask cand patchSize H W draws NPatch with _ | rs
  · have := hsome NPatch; rw [hres] at this; simp at this
  · refine ⟨?_, ?_, ?_, ?_⟩
    · intro v hv
      rcases List.mem_flatten.mp hv with ⟨li, hli, hvli⟩
      rcases List.mem_map.mp hli with ⟨r, hr, rfl⟩
      rcases patchResults_mem rayMask cand patchSize H W draws NPatch rs hres r hr with ⟨k, hk⟩
      exact aux_rayIdx_bounds rayMask cand patchSize H W k r hk v hvli
    · exact scanl_add_chain _ 0
    · exact scanl_add_head _ 0
    · rw [scanl_add_last _ 0]
      have : ((rs.map PatchSingle.rayIdx).flatten).length
          = (rs.map (fun r => r.rayIdx.length)).sum := by
        rw [List.length_flatten, List.map_map]
        rfl
      simp [this]

/-- Witness for C2: two 1×1 patches on a 2×2 image, subject mask true at
`(0,1)` and `(1,0)`, draws `0, 1`. -/
theorem C2_patch_ray_indices_witness :
    rayMaskW.length = 2 * 2 ∧ validPixels candOne 2 2 ≠ [] ∧
    (match getPatchRayIndices 2 rayMaskW candOne 1 2 2 id with
     | none => False
     | some out =>
        (∀ v ∈ out.selectInds, 0 ≤ v ∧ v < (countTrue rayMaskW : ℤ))
        ∧ List.Chain' (· ≤ ·) out.divIndices
        ∧ out.divIndices.head? = some 0
        ∧ out.divIndices.getLast? = some out.selectInds.length) :=
  ⟨by decide, by decide,
   C2_patch_ray_indices 2 rayMaskW candOne 1 2 2 id (by decide) (by decide)⟩

theorem valListFull_nodup (n : ℕ) : (valListFull n).Nodup :=
  List.Nodup.filter _ (List.nodup_range n)

theorem valListFull_lt (n : ℕ) : ∀ x ∈ valListFull n, x < n := by
  intro x hx
  have := List.mem_of_mem_filter hx
  exact List.mem_range.mp this

theorem filter_not_length {α : Type} (l : List α) (q : α → Bool) :
    (l.filter (fun i => !(q i))).length + (l.filter q).length = l.length := by
  induction l with
  | nil => simp
  | cons a t ih =>
    cases h : q a <;> simp [List.filter, h] <;> omega

theorem range_filter_mem (n : ℕ) :
    (List.range n).filter (fun i => decide (i ∈ valListFull n)) = valListFull n := by
  have h : ∀ i ∈ List.range n,
      (decide (i ∈ valListFull n))
        = (decide ((n / (n / 5)) / 2 ≤ i)
            && ((i - (n / (n / 5)) / 2) % (n / (n / 5)) == 0)) := by
    intro i hi
    rw [Bool.eq_iff_iff]
    constructor
    · intro hd
      have hmem := of_decide_eq_true hd
      unfold valListFull pySliceStep at hmem
      exact (List.mem_filter.mp hmem).2
    · intro hp
      refine decide_eq_true ?_
      unfold valListFull pySliceStep
      exact List.mem_filter.mpr ⟨hi, hp⟩
  exact (List.filter_congr h).trans rfl

theorem trainListOf_length (n : ℕ) :
    (trainListOf n).length + (valListFull n).length = n := by
  have h0 : ∀ i ∈ List.range n,
      (decide (i ∉ valListFull n)) = !(decide (i ∈ valListFull n)) := by
    intro i _
    simp
  have h1 := filter_not_length (List.range n) (fun i => decide (i ∈ valListFull n))
  rw [range_filter_mem n, List.length_range] at h1
  unfold trainListOf
  rw [List.filter_congr h0]
  exact h1

/-- Claim C8: whenever `get_data_splits` succeeds on an `n`-capture scene,
the train/val/test index lists are pairwise disjoint subsets of
`{0, …, n-1}` whose lengths sum to `n`, and each list is non-empty (scenes
too short to produce non-empty splits return an error instead). -/
theorem C8_data_splits (n : ℕ) :
    match getDataSplits n with
    | Except.error _ => True
    | Except.ok s =>
        s.1 ≠ [] ∧ s.2.1 ≠ [] ∧ s.2.2 ≠ []
        ∧ s.1.length + s.2.1.length + s.2.2.length = n
        ∧ (∀ x ∈ s.1, x < n) ∧ (∀ x ∈ s.2.1, x < n) ∧ (∀ x ∈ s.2.2, x < n)
        ∧ s.1.Disjoint s.2.1 ∧ s.1.Disjoint s.2.2 ∧ s.2.1.Disjoint s.2.2 := by
  unfold getDataSplits
  split_ifs with h5 htr hte hva
  · trivial
  · trivial
  · trivial
  · trivial
  · show trainListOf n ≠ [] ∧ valListOf n ≠ [] ∧ testListOf n ≠ []
      ∧ (trainListOf n).length + (valListOf n).length + (testListOf n).length = n
      ∧ (∀ x ∈ trainListOf n, x < n) ∧ (∀ x ∈ valListOf n, x < n)
      ∧ (∀ x ∈ testListOf n, x < n)
      ∧ (trainListOf n).Disjoint (valListOf n)
      ∧ (trainListOf n).Disjoint (testListOf n)
      ∧ (valListOf n).Disjoint (testListOf n)
    have hnotmem : ∀ x ∈ trainListOf n, x ∉ valListFull n := by
      intro x hx
      unfold trainListOf at hx
      exact of_decide_eq_true (List.mem_filter.mp hx).2
    refine ⟨?_, ?_, ?_, ?_, ?_, ?_, ?_, ?_, ?_, ?_⟩
    · exact fun h => htr (List.isEmpty_iff.mpr h)
    · exact fun h => hva (List.isEmpty_iff.mpr h)
    · exact fun h => hte (List.isEmpty_iff.mpr h)
    · have h1 := trainListOf_length n
      have h2 : (testListOf n).length + (valListOf n).length = (valListFull n).length := by
        unfold testListOf valListOf
        rw [List.length_take, List.length_drop]
        omega
      omega
    · intro x hx
      unfold trainListOf at hx
      exact List.mem_range.mp (List.mem_of_mem_filter hx)
    · intro x hx
      exact valListFull_lt n x (List.drop_subset _ _ hx)
    · intro x hx
      exact valListFull_lt n x (List.take_subset _ _ hx)
    · intro x hxtr hxva
      exact hnotmem x hxtr (List.drop_subset _ _ hxva)
    · intro x hxtr hxte
      exact hnotmem x hxtr (List.take_subset _ _ hxte)
    · intro x hxva hxte
      exact (List.disjoint_take_drop (valListFull_nodup n) (le_refl _)) hxte hxva

/-- Witness for C8: a 100-capture scene succeeds (no assertion fires) and
satisfies the split invariants; in particular the split sizes 80/10/10 sum
to 100. -/
theorem C8_data_splits_witness :
    (getDataSplits 100).isOk = true ∧
    (match getDataSplits 100 with
     | Except.error _ => True
     | Except.ok s =>
        s.1 ≠ [] ∧ s.2.1 ≠ [] ∧ s.2.2 ≠ []
        ∧ s.1.length + s.2.1.length + s.2.2.length = 100
        ∧ (∀ x ∈ s.1, x < 100) ∧ (∀ x ∈ s.2.1, x < 100) ∧ (∀ x ∈ s.2.2, x < 100)
        ∧ s.1.Disjoint s.2.1 ∧ s.1.Disjoint s.2.2 ∧ s.2.1.Disjoint s.2.2) :=
  ⟨by decide, C8_data_splits 100⟩

/-- C6 counterexample: the claim says all three lookups fail on an
unrecognized scene name, but `alignment` on the unrecognized scene
`"my/scenes/foo"` returns the identity default configuration
(translation 0, rotation 0, scale 1) instead of raising. -/
theorem C6_counterexample :
    (basename sceneFoo ≠ "seattle" ∧ basename sceneFoo ≠ "citron"
      ∧ basename sceneFoo ≠ "parkinglot" ∧ basename sceneFoo ≠ "bike"
      ∧ basename sceneFoo ≠ "jogging" ∧ basename sceneFoo ≠ "lab")
    ∧ alignment sceneFoo = (⟨0, 0, 0⟩, ⟨0, 0, 0⟩, 1) := by
  constructor
  · refine ⟨?_, ?_, ?_, ?_, ?_, ?_⟩ <;> decide
  · decide

/-- Claim C6 (amended): for an unrecognized scene basename the mocap-path
and rendering-camera-path lookups fail (explicit `ValueError`, respectively
`UnboundLocalError` from the missing `else` branch), while the manual
alignment lookup does not fail: it returns the identity default
configuration. -/
theorem C6_unrecognized_scene (s : String) (nframes : ℕ) (caps : ℕ → Cap)
    (cosT sinT : ℚ → ℚ)
    (h1 : basename s ≠ "seattle") (h2 : basename s ≠ "citron")
    (h3 : basename s ≠ "parkinglot") (h4 : basename s ≠ "bike")
    (h5 : basename s ≠ "jogging") (h6 : basename s ≠ "lab") :
    mocapPath s = Except.error ("ValueError: Define new elif branch")
    ∧ renderingCaps s nframes caps cosT sinT
        = Except.error ("UnboundLocalError: dummy_caps")
    ∧ alignment s = (⟨0, 0, 0⟩, ⟨0, 0, 0⟩, 1) := by
  unfold mocapPath renderingCaps alignment
  simp [h1, h2, h3, h4, h5, h6]

/-- Witness for C6 at the concrete unrecognized scene `"my/scenes/foo"`. -/
theorem C6_unrecognized_scene_witness :
    mocapPath sceneFoo = Except.error ("ValueError: Define new elif branch")
    ∧ renderingCaps sceneFoo 3 (fun _ => capTriv) id id
        = Except.error ("UnboundLocalError: dummy_caps")
    ∧ alignment sceneFoo = (⟨0, 0, 0⟩, ⟨0, 0, 0⟩, 1) :=
  C6_unrecognized_scene sceneFoo 3 (fun _ => capTriv) id id
    (by decide) (by decide) (by decide) (by decide) (by decide) (by decide)

theorem maskFilter_length {α : Type} :
    ∀ (mask : List Bool) (xs : List α), mask.length = xs.length →
      (maskFilter mask xs).length = countTrue mask := by
  intro mask
  induction mask with
  | nil =>
    intro xs _
    simp [maskFilter, countTrue]
  | cons b t ih =>
    intro xs hlen
    cases xs with
    | nil => simp at hlen
    | cons x xs' =>
      have hlen' : t.length = xs'.length := by simpa using hlen
      have hstep : maskFilter (b :: t) (x :: xs')
          = if b then x :: maskFilter t xs' else maskFilter t xs' := by
        cases b <;> simp [maskFilter, List.zip, List.zip_cons_cons, List.filter]
      have hcnt : countTrue (b :: t) = (if b then 1 else 0) + countTrue t := by
        cases b
        · simp [countTrue]
        · simp only [countTrue, List.filter, id]
          simp
          omega
      rw [hstep, hcnt]
      cases b
      · simpa using ih xs' hlen'
      · simp only [if_pos trivial, List.length_cons, ih xs' hlen']
        omega

theorem filterMap_id_length {α : Type} :
    ∀ (l : List (Option α)),
      (l.filterMap id).length = countTrue (l.map Option.isSome) := by
  intro l
  induction l with
  | nil => simp [countTrue]
  | cons o t ih =>
    cases o with
    | none => simpa [countTrue, List.filterMap] using ih
    | some a =>
      simp only [List.filterMap, List.map, countTrue, List.filter] at *
      simpa [countTrue] using ih

/-- Claim C3: after ray–box intersection, the ray mask has one entry per
pixel (`H·W`) and every compacted output — `near`, `far`, `rays_o`,
`rays_d`, and the target pixel colors `ray_img` — has length equal to the
mask's true count. -/
theorem C3_compaction_lengths (ext : Ext) (idx : ℕ) (bbox : V3 × V3) :
    (compactStage ext idx bbox).rayMask.length = ext.sizeH idx * ext.sizeW idx
    ∧ (compactStage ext idx bbox).nerfNear.length
        = countTrue (compactStage ext idx bbox).rayMask
    ∧ (compactStage ext idx bbox).nerfFar.length
        = countTrue (compactStage ext idx bbox).rayMask
    ∧ (compactStage ext idx bbox).raysO.length
        = countTrue (compactStage ext idx bbox).rayMask
    ∧ (compactStage ext idx bbox).raysD.length
        = countTrue (compactStage ext idx bbox).rayMask
    ∧ (compactStage ext idx bbox).rayImg.length
        = countTrue (compactStage ext idx bbox).rayMask := by
  unfold compactStage raysIntersect3dBbox
  simp only []
  set H := ext.sizeH idx
  set W := ext.sizeW idx
  set K := ext.intr idx
  set E := ext.applyGlobalTfm (ext.extrinsic idx) (ext.globalOrient idx) (ext.transl idx)
  set R := m3of4 E
  set T := smulV (1 / 13) (col3of E)
  set rOs := (List.range (H * W)).map (fun i => ext.raysO H W K R T (i / W) (i % W)) with hros
  set rDs := (List.range (H * W)).map (fun i => ext.raysD H W K R T (i / W) (i % W)) with hrds
  set rImg := (List.range (H * W)).map (fun i => imgOf ext idx (i / W) (i % W)) with hrimg
  set hits := (rOs.zip rDs).map (fun p => rayHit bbox.1 bbox.2 p.1 p.2) with hhits
  have hlros : rOs.length = H * W := by rw [hros]; simp
  have hlrds : rDs.length = H * W := by rw [hrds]; simp
  have hlrimg : rImg.length = H * W := by rw [hrimg]; simp
  have hlhits : hits.length = H * W := by
    rw [hhits, List.length_map, List.length_zip, hlros, hlrds]
    exact Nat.min_self _
  have hmask : (hits.map Option.isSome).length = H * W := by
    rw [List.length_map]; exact hlhits
  have hcnt : (hits.filterMap id).length = countTrue (hits.map Option.isSome) :=
    filterMap_id_length hits
  refine ⟨hmask, ?_, ?_, ?_, ?_, ?_⟩
  · rw [List.length_map]; exact hcnt
  · rw [List.length_map]; exact hcnt
  · exact maskFilter_length _ _ (by rw [List.length_map, hlhits, hlros])
  · exact maskFilter_length _ _ (by rw [List.length_map, hlhits, hlrds])
  · exact maskFilter_length _ _ (by rw [List.length_map, hlhits, hlrimg])

theorem patchResults_one (rm : List Bool) (cand : ℕ → ℕ → Bool)
    (ps H W : ℕ) (draws : ℕ → ℕ) :
    patchResults rm cand ps H W draws 1
      = (getPatchRayIndicesAux rm cand ps H W (draws 0)).map (fun r => [r]) := by
  rcases h : getPatchRayIndicesAux rm cand ps H W (draws 0) with _ | r
  · simp [patchResults, h]
  · simp [patchResults, h]

theorem aux_isSome_iff (rm : List Bool) (cand : ℕ → ℕ → Bool) (ps H W k : ℕ) :
    (getPatchRayIndicesAux rm cand ps H W k).isSome = true
      ↔ validPixels cand H W ≠ [] := by
  unfold getPatchRayIndicesAux
  rw [Option.isSome_map']
  exact patchCenter_isSome_iff cand H W k

theorem getPatchOne_isSome_iff (rm : List Bool) (cand : ℕ → ℕ → Bool)
    (ps H W : ℕ) (draws : ℕ → ℕ) :
    (getPatchRayIndices 1 rm cand ps H W draws).isSome = true
      ↔ validPixels cand H W ≠ [] := by
  have haux := aux_isSome_iff rm cand ps H W (draws 0)
  unfold getPatchRayIndices
  rw [patchResults_one]
  rcases h : getPatchRayIndicesAux rm cand ps H W (draws 0) with _ | r
  · rw [h] at haux
    simpa using haux
  · rw [h] at haux
    simpa using haux

theorem patchStage_isSome_iff (pre : PreD) (draws : ℕ → ℕ) :
    (patchStage pre draws).isSome = true
      ↔ validPixels (fun y x => decide (0 < pre.mskF y x)) pre.hgt pre.wid ≠ [] := by
  have h := getPatchOne_isSome_iff pre.stage.rayMask
    (fun y x => decide (0 < pre.mskF y x)) 160 pre.hgt pre.wid draws
  unfold patchStage samplePatchRays
  rcases hg : getPatchRayIndices 1 pre.stage.rayMask
      (fun y x => decide (0 < pre.mskF y x)) 160 pre.hgt pre.wid draws with _ | po
  · rw [hg] at h
    simpa using h
  · rw [hg] at h
    simpa using h

/-- Claim C1 (amended): a sample record is a pure function of the external
inputs, the frame index, and the random draws consumed by patch sampling:
with the draw stream also fixed, two evaluations agree exactly; with only
the external inputs and frame index fixed, all record fields outside the
patch-sampling outputs (the whole `base` part — ray mask, camera data, pose
vectors, canonical data, target image/mask, subject bbox) still agree. -/
theorem C1_determinism (ext : Ext) (i : ℕ) (d1 d2 : ℕ → ℕ) :
    (getSingleItem ext i d1).map Datum.base = (getSingleItem ext i d2).map Datum.base
    ∧ (d1 = d2 → getSingleItem ext i d1 = getSingleItem ext i d2) := by
  constructor
  · unfold getSingleItem
    rcases hidx : (idxList ext).get? i with _ | idx
    · rfl
    · dsimp only
      rcases hpre : preDatum ext idx with _ | pre
      · rfl
      · dsimp only
        have h1 := patchStage_isSome_iff pre d1
        have h2 := patchStage_isSome_iff pre d2
        rcases ha : patchStage pre d1 with _ | p1 <;>
          rcases hb : patchStage pre d2 with _ | p2
        · rfl
        · exfalso
          rw [ha] at h1
          rw [hb] at h2
          have hvp := h2.mp (by simp)
          have hff := h1.mpr hvp
          simp at hff
        · exfalso
          rw [ha] at h1
          rw [hb] at h2
          have hvp := h1.mp (by simp)
          have hff := h2.mpr hvp
          simp at hff
        · rfl
  · intro h
    rw [h]

section ConcreteEval

attribute [local semireducible] Rat.add Rat.mul Rat.inv Rat.sub

set_option maxRecDepth 100000

theorem extRng_div_draw0 :
    (getSingleItem extRng 0 dZero).map Datum.patchDivIndices = some [0, 1] := by
  decide

theorem extRng_div_draw1 :
    (getSingleItem extRng 0 dOne).map Datum.patchDivIndices = some [0, 0] := by
  decide

/-- C1 counterexample: with all listed external inputs identical (the same
`extRng` record: images, masks, SMPL parameters, camera data) and the same
frame index, two evaluations of `get_single_item` that consume different
`np.random.choice` draws produce different sample records — the claim's
input list omits the random-number-generator state that patch sampling
consumes. -/
theorem C1_counterexample :
    getSingleItem extRng 0 dZero ≠ getSingleItem extRng 0 dOne := by
  intro h
  have hd := congrArg (Option.map Datum.patchDivIndices) h
  rw [extRng_div_draw0, extRng_div_draw1] at hd
  have : ([0, 1] : List ℕ) = [0, 0] := Option.some.inj hd
  simp at this

/-- Witness for C1 at concrete inputs: the base parts agree even across
different draws, and an evaluation with a fixed draw stream equals itself. -/
theorem C1_determinism_witness :
    (getSingleItem extRng 0 dZero).map Datum.base
        = (getSingleItem extRng 0 dOne).map Datum.base
    ∧ getSingleItem extRng 0 dZero = getSingleItem extRng 0 dZero :=
  ⟨(C1_determinism extRng 0 dZero dOne).1,
   (C1_determinism extRng 0 dZero dZero).2 rfl⟩

theorem preDatum_cnl (ext : Ext) (idx : ℕ) (pre : PreD)
    (h : preDatum ext idx = some pre) :
    ∃ cp, canonicalPart ext = some cp
      ∧ pre.b.cnlBboxMinXyz = cp.boxMin
      ∧ pre.b.cnlBboxMaxXyz = cp.boxMax
      ∧ pre.b.cnlBboxScaleXyz = ⟨2 / (cp.boxMax.x - cp.boxMin.x),
          2 / (cp.boxMax.y - cp.boxMin.y), 2 / (cp.boxMax.z - cp.boxMin.z)⟩
      ∧ pre.b.motionWeightsPriors = cp.mwp := by
  unfold preDatum at h
  dsimp only at h
  rcases hbb : maskBBox (mskOf ext idx) (ext.sizeH idx) (ext.sizeW idx) with _ | bb <;>
    rw [hbb] at h
  · exact absurd h (by simp)
  · rcases hcp : canonicalPart ext with _ | cp <;> rw [hcp] at h
    · exact absurd h (by simp)
    · dsimp only at h
      rcases hdb : skeletonToBbox
          (ext.smplJoints (List.replicate 3 0 ++ ext.bodyPose idx) (ext.betas idx))
          (3 / 10) with _ | dstBox <;> rw [hdb] at h
      · exact absurd h (by simp)
      · dsimp only at h
        split at h
        · refine ⟨cp, rfl, ?_, ?_, ?_, ?_⟩ <;>
            · rw [← Option.some.inj h]
        · exact absurd h (by simp)

theorem getSingleItem_cnl (ext : Ext) (i : ℕ) (d : ℕ → ℕ) (dt : Datum)
    (h : getSingleItem ext i d = some dt) :
    ∃ cp, canonicalPart ext = some cp
      ∧ cnlView dt = (cp.boxMin, cp.boxMax,
          (⟨2 / (cp.boxMax.x - cp.boxMin.x), 2 / (cp.boxMax.y - cp.boxMin.y),
            2 / (cp.boxMax.z - cp.boxMin.z)⟩ : V3), cp.mwp) := by
  unfold getSingleItem at h
  rcases hidx : (idxList ext).get? i with _ | idx <;> rw [hidx] at h
  · exact absurd h (by simp)
  · dsimp only at h
    rcases hpre : preDatum ext idx with _ | pre <;> rw [hpre] at h
    · exact absurd h (by simp)
    · dsimp only at h
      rcases hps : patchStage pre d with _ | po <;> rw [hps] at h
      · exact absurd h (by simp)
      · rcases preDatum_cnl ext idx pre hpre with ⟨cp, hcp, h1, h2, h3, h4⟩
        refine ⟨cp, hcp, ?_⟩
        have hdt : dt = assemble pre po := (Option.some.inj h).symm
        subst hdt
        unfold cnlView assemble
        dsimp only
        rw [h1, h2, h3, h4]

/-- Claim C10: the canonical bounding box and motion-weight priors are the
same in every produced sample record: for any two frame indices (and any
draws) of a train/val dataset whose records both exist, the
`cnl_bbox_min_xyz`, `cnl_bbox_max_xyz`, `cnl_bbox_scale_xyz` and
`motion_weights_priors` fields agree (they derive only from
frame-independent inputs: the predefined da-pose and the mean betas). -/
theorem C10_canonical_shared (ext : Ext) (i j : ℕ) (d1 d2 : ℕ → ℕ)
    (h1 : (getSingleItem ext i d1).isSome = true)
    (h2 : (getSingleItem ext j d2).isSome = true) :
    (getSingleItem ext i d1).map cnlView = (getSingleItem ext j d2).map cnlView := by
  rcases Option.isSome_iff_exists.mp h1 with ⟨dt1, hd1⟩
  rcases Option.isSome_iff_exists.mp h2 with ⟨dt2, hd2⟩
  rcases getSingleItem_cnl ext i d1 dt1 hd1 with ⟨cp1, hcp1, hv1⟩
  rcases getSingleItem_cnl ext j d2 dt2 hd2 with ⟨cp2, hcp2, hv2⟩
  rw [hd1, hd2, Option.map_some', Option.map_some', hv1, hv2]
  rw [hcp1] at hcp2
  cases Option.some.inj hcp2
  rfl

theorem cacheZeroEq :
    getItemCached extRng buildZero 0 = some (getSingleItem extRng 0 dZero) := by
  unfold getItemCached cacheList
  rw [List.get?_map, List.get?_range (by decide : 0 < datasetLen extRng)]
  rfl

/-- C4 counterexample: the record served from the cache (built with draw
stream 0) differs from what on-demand computation at access time would
produce when the access-time patch draw differs — identical external
inputs, index 0, but the cached patch was sampled with a different random
draw. -/
theorem C4_counterexample :
    getItemCached extRng buildZero 0 ≠ some (getSingleItem extRng 0 dOne) := by
  intro h
  rw [cacheZeroEq] at h
  have h2 := Option.some.inj h
  have hd := congrArg (Option.map Datum.patchDivIndices) h2
  rw [extRng_div_draw0, extRng_div_draw1] at hd
  have : ([0, 1] : List ℕ) = [0, 0] := Option.some.inj hd
  simp at this

/-- Claim C4 (amended): eager materialization is content-preserving with
respect to the draws consumed at build time: for every valid index, the
cached entry equals exactly the record `get_single_item` produces with the
build-time draw stream; only the patch-sampling random draws distinguish it
from a fresh access-time recomputation. -/
theorem C4_cache_content (ext : Ext) (buildDraws : ℕ → ℕ → ℕ) (idx : ℕ)
    (h : idx < datasetLen ext) :
    getItemCached ext buildDraws idx
      = some (getSingleItem ext idx (buildDraws idx)) := by
  unfold getItemCached cacheList
  rw [List.get?_map, List.get?_range h]
  rfl

/-- Witness for C4 at the concrete dataset: index 0 is valid and the cached
entry equals the build-time computation. -/
theorem C4_cache_content_witness :
    0 < datasetLen extRng
    ∧ getItemCached extRng buildZero 0
        = some (getSingleItem extRng 0 (buildZero 0)) :=
  ⟨by decide, C4_cache_content extRng buildZero 0 (by decide)⟩

/-- Witness for C10 at the concrete dataset: two different frame indices
(0 and 1) with different draw streams both produce records, and their
canonical fields agree. -/
theorem C10_canonical_shared_witness :
    (getSingleItem extRng 0 dZero).isSome = true
    ∧ (getSingleItem extRng 1 dOne).isSome = true
    ∧ (getSingleItem extRng 0 dZero).map cnlView
        = (getSingleItem extRng 1 dOne).map cnlView :=
  ⟨by decide, by decide,
   C10_canonical_shared extRng 0 1 dZero dOne (by decide) (by decide)⟩

end ConcreteEval

end Neuman
